import Mathlib

/-!
Verification of the conversational-loop logic of `use_model.py`.

The Python script loads a causal-LM checkpoint and drives either a single-shot
generation or an interactive chat loop.  Its own logic is pure string
formatting, history bookkeeping and a command loop; model loading,
tokenization and generation are delegated to an external library.  We embed
that script-owned logic shallowly:

* strings are `List Char` (Python `str`); string formatting is list append;
* the external provider (tokenize + `model.generate` + decode) is an opaque
  function `List Char → Option (List Char)`, where `none` models the
  `except`-caught failure of the try-block in `generate_response`;
* `Option` models Python `None` results; Python truthiness of strings
  (`if response:`) is modelled by the explicit emptiness test.

Line references are to `use_model.py`.
-/

/-! ## ChatML marker constants (string literals of lines 52, 76-79, 115-119) -/

/-- `"<|im_start|>user\n"`, the user-turn opener (lines 52, 115, 119). -/
def imStartUser : List Char := "<|im_start|>user\n".toList

/-- `"<|im_start|>assistant\n"`, the assistant-turn opener (lines 52, 76, 77, 117, 119). -/
def imStartAssistant : List Char := "<|im_start|>assistant\n".toList

/-- `"<|im_end|>"`, the turn end marker as tested on line 78. -/
def imEnd : List Char := "<|im_end|>".toList

/-- `"<|im_end|>\n"`, the turn closer plus newline (lines 52, 115, 117, 119). -/
def imEndNl : List Char := "<|im_end|>\n".toList

/-- `"<|im_end|"` — the separator actually passed to `split` on line 79;
    it is the end marker with its closing `>` missing. -/
def imEndUnclosed : List Char := "<|im_end|".toList

/-! ## Python string primitives used by the script -/

/-- Index of the first occurrence of `p` in `s` (the position Python's
    `str.find`/`str.split` machinery locates first), `none` if `p` does not
    occur. -/
def firstOccIdx? (p : List Char) : List Char → Option Nat
  | [] => if p <+: ([] : List Char) then some 0 else none
  | c :: rest => if p <+: (c :: rest) then some 0 else (firstOccIdx? p rest).map (· + 1)

/-- Python's `p in s` substring test. -/
def containsB (p s : List Char) : Bool := (firstOccIdx? p s).isSome

/-- Fuel-driven core of `pySplitLast`; one fuel unit per separator skipped.
    Since every recursion step consumes at least one character, fuel
    `s.length` is always sufficient. -/
def pySplitLastAux (sep : List Char) : Nat → List Char → List Char
  | 0, s => s
  | fuel + 1, s =>
    match firstOccIdx? sep s with
    | none => s
    | some i => pySplitLastAux sep fuel (s.drop (i + sep.length))

/-- Python's `s.split(sep)[-1]` for a non-empty separator: the remainder of
    `s` after the last separator found by the left-to-right non-overlapping
    scan of `str.split`; `s` itself when `sep` does not occur. -/
def pySplitLast (sep s : List Char) : List Char := pySplitLastAux sep s.length s

/-- Python's `s.split(sep)[0]` for a non-empty separator: the part of `s`
    before the first occurrence of `sep`; `s` itself when `sep` does not
    occur. -/
def pySplitFirst (sep s : List Char) : List Char :=
  match firstOccIdx? sep s with
  | none => s
  | some i => s.take i

/-- ASCII whitespace recognised by Python's `str.strip()`. -/
def isPySpace (c : Char) : Bool :=
  c == ' ' || c == '\t' || c == '\n' || c == '\r' || c == '\x0b' || c == '\x0c'

/-- Python's `s.strip()`: remove leading and trailing whitespace. -/
def pyStrip (s : List Char) : List Char :=
  ((s.dropWhile isPySpace).reverse.dropWhile isPySpace).reverse

/-- Python's `s.lower()` (ASCII case folding suffices for the command words
    `quit` and `clear` the script compares against). -/
def pyLower (s : List Char) : List Char := s.map Char.toLower

/-! ## generate_response (lines 46-85) -/

/-- Line 52: `f"<|im_start|>user\n{prompt}<|im_end|>\n<|im_start|>assistant\n"` —
    the ChatML wrapping `generate_response` applies to its `prompt` argument
    before tokenizing. -/
def chatmlWrap (prompt : List Char) : List Char :=
  imStartUser ++ prompt ++ imEndNl ++ imStartAssistant

/-- Lines 73-81: the post-processing of the decoded text.
    Line 76-77: if the assistant opener occurs, keep `split(opener)[-1]`.
    Line 78-79: if `"<|im_end|>"` occurs in the result, keep
    `split("<|im_end|")[0]` — note the separator on line 79 lacks the
    closing `>`.  Line 81: `strip()`. -/
def extractResponse (response : List Char) : List Char :=
  let r1 := if containsB imStartAssistant response then
              pySplitLast imStartAssistant response
            else response
  let r2 := if containsB imEnd r1 then pySplitFirst imEndUnclosed r1 else r1
  pyStrip r2

/-- Lines 46-85: `generate_response`.  The provider argument stands for
    tokenize + `model.generate` + decode (lines 55-73); `none` is the
    exception path of the surrounding try/except (lines 83-85), which
    returns `None`. -/
def generate_response (provider : List Char → Option (List Char))
    (prompt : List Char) : Option (List Char) :=
  (provider (chatmlWrap prompt)).map extractResponse

/-! ## Conversation data model and prompt rendering (lines 95-119) -/

/-- The `'role'` field of a history entry (spec data model: user | assistant). -/
inductive Role where
  | user
  | assistant
deriving DecidableEq

/-- One history entry `{'role': ..., 'content': ...}` (lines 130-131). -/
structure Turn where
  role : Role
  content : List Char
deriving DecidableEq

/-- Lines 113-117: how one prior history entry is serialized into the prompt. -/
def wrapTurn (t : Turn) : List Char :=
  match t.role with
  | Role.user => imStartUser ++ t.content ++ imEndNl
  | Role.assistant => imStartAssistant ++ t.content ++ imEndNl

/-- Lines 112-117: the `for msg in conversation_history` accumulation. -/
def renderHistory : List Turn → List Char
  | [] => []
  | t :: ts => wrapTurn t ++ renderHistory ts

/-- Lines 112-119: the full prompt built for one interactive turn — all prior
    turns, then the new user message wrapped as a user turn, then the open
    assistant opener. -/
def renderPrompt (hist : List Turn) (userInput : List Char) : List Char :=
  renderHistory hist ++ imStartUser ++ userInput ++ imEndNl ++ imStartAssistant

/-! ## One iteration of the interactive loop (lines 97-133) -/

/-- One pass of the `while True` body of `interactive_chat` for a console
    line `raw`: `none` means the loop terminates (`break` on `quit`,
    line 101-103); `some hist'` means the loop continues awaiting input with
    history `hist'`.
    Line 99 strips the input; lines 101/104 compare its lowercasing with the
    command words; line 108 skips empty input; lines 124-133 generate and,
    only when the response is truthy (`if response:`), append the user and
    assistant entries as a pair (lines 130-131). -/
def interactiveStep (provider : List Char → Option (List Char))
    (hist : List Turn) (raw : List Char) : Option (List Turn) :=
  if pyLower (pyStrip raw) = "quit".toList then none
  else if pyLower (pyStrip raw) = "clear".toList then some []
  else if pyStrip raw = [] then some hist
  else
    match generate_response provider (renderPrompt hist (pyStrip raw)) with
    | some r =>
        if r = [] then some hist
        else some (hist ++ [⟨Role.user, pyStrip raw⟩, ⟨Role.assistant, r⟩])
    | none => some hist

/-! ## load_model and main control flow (lines 10-44, 141-180) -/

/-- Which branch of `main` (lines 153-180) is taken after the load attempt. -/
inductive MainAction where
  | loadFailed
  | singleShot
  | interactiveMode
  | usage
deriving DecidableEq

/-- Lines 23-44: `load_model`'s try/except.  `attempt` stands for the outcome
    of the library calls (lines 25-33): `some h` is the `(model, tokenizer)`
    pair, `none` the raised exception whose message is `excMsg`.  The second
    component lists the diagnostics printed on each path (lines 35, 39-43). -/
def load_model {H : Type} (attempt : Option H) (excMsg : List Char) :
    Option H × List (List Char) :=
  match attempt with
  | some h => (some h, ["✅ Model loaded successfully!".toList])
  | none =>
      (none,
        ("❌ Error loading model: ".toList ++ excMsg) ::
          ["\n💡 Tips:".toList,
           "1. Make sure you have enough RAM (at least 16GB recommended)".toList,
           "2. Consider using a smaller model variant if you have memory issues".toList,
           "3. Check your internet connection for the first download".toList])

/-- Lines 153-180 of `main`: after `load_model`, return early when the handle
    is `None` (lines 156-157); otherwise dispatch on `args.prompt` (truthy:
    not `None` and non-empty, line 160), then `args.interactive` (line 169),
    else print usage (line 173). -/
def mainAction {H : Type} (loadOutcome : Option H)
    (promptArg : Option (List Char)) (interactiveFlag : Bool) : MainAction :=
  match loadOutcome with
  | none => MainAction.loadFailed
  | some _ =>
      match promptArg with
      | some p =>
          if p ≠ [] then MainAction.singleShot
          else if interactiveFlag then MainAction.interactiveMode
          else MainAction.usage
      | none =>
          if interactiveFlag then MainAction.interactiveMode
          else MainAction.usage

/-! ## Occurrence predicates (for stating marker properties) -/

/-- `p` occurs in `s` starting at index `i`. -/
def occursAt (p s : List Char) (i : Nat) : Prop := p <+: s.drop i

instance (p s : List Char) (i : Nat) : Decidable (occursAt p s i) := by
  unfold occursAt; infer_instance

/-- `p` occurs somewhere in `s`. -/
def occurs (p s : List Char) : Prop := ∃ i, occursAt p s i

/-- `ℓ` is the last index at which `p` occurs in `s`. -/
def isLastOccurrenceAt (p s : List Char) (ℓ : Nat) : Prop :=
  occursAt p s ℓ ∧ ∀ j, j ≤ s.length → occursAt p s j → j ≤ ℓ

/-- `k` is the first index at which `p` occurs in `s`. -/
def isFirstOccurrenceAt (p s : List Char) (k : Nat) : Prop :=
  occursAt p s k ∧ ∀ j, j < k → ¬ occursAt p s j

/-- An assistant opener at `i` that is never followed by an end marker:
    the "open (unclosed) assistant marker" of the specification. -/
def openAssistantAt (s : List Char) (i : Nat) : Prop :=
  occursAt imStartAssistant s i ∧
    ∀ j, j ≤ s.length → i + imStartAssistant.length ≤ j → ¬ occursAt imEnd s j

/-! ## Basic facts about the occurrence machinery -/

theorem firstOccIdx_none (p : List Char) :
    ∀ s : List Char, firstOccIdx? p s = none → ∀ i, ¬ p <+: s.drop i := by
  intro s
  induction s with
  | nil =>
      intro h i
      simp only [firstOccIdx?] at h
      split at h
      · exact absurd h (by simp)
      · simpa using ‹¬ p <+: ([] : List Char)›
  | cons c rest ih =>
      intro h i
      simp only [firstOccIdx?] at h
      split at h
      · exact absurd h (by simp)
      · rename_i hnp
        cases i with
        | zero => simpa using hnp
        | succ j =>
            have hrec : firstOccIdx? p rest = none := by
              cases hr : firstOccIdx? p rest with
              | none => rfl
              | some k => rw [hr] at h; simp at h
            simpa using ih hrec j

theorem firstOccIdx_some (p : List Char) :
    ∀ s : List Char, ∀ i, firstOccIdx? p s = some i →
      p <+: s.drop i ∧ ∀ j, j < i → ¬ p <+: s.drop j := by
  intro s
  induction s with
  | nil =>
      intro i h
      simp only [firstOccIdx?] at h
      split at h
      · rename_i hp
        have : i = 0 := by simpa using h.symm
        subst this
        exact ⟨by simpa using hp, by omega⟩
      · exact absurd h (by simp)
  | cons c rest ih =>
      intro i h
      simp only [firstOccIdx?] at h
      split at h
      · rename_i hp
        have : i = 0 := by simpa using h.symm
        subst this
        exact ⟨by simpa using hp, by omega⟩
      · rename_i hnp
        cases hr : firstOccIdx? p rest with
        | none => rw [hr] at h; simp at h
        | some k =>
            rw [hr] at h
            simp only [Option.map_some'] at h
            have hik : i = k + 1 := by simpa using h.symm
            subst hik
            obtain ⟨h1, h2⟩ := ih k hr
            refine ⟨by simpa using h1, ?_⟩
            intro j hj
            cases j with
            | zero => simpa using hnp
            | succ m =>
                have : m < k := by omega
                simpa using h2 m this

theorem firstOccIdx_isSome (p s : List Char) (i : Nat) (h : p <+: s.drop i) :
    (firstOccIdx? p s).isSome = true := by
  cases hr : firstOccIdx? p s with
  | none => exact absurd h (firstOccIdx_none p s hr i)
  | some k => rfl

theorem containsB_iff (p s : List Char) : containsB p s = true ↔ occurs p s := by
  constructor
  · intro h
    unfold containsB at h
    cases hr : firstOccIdx? p s with
    | none => rw [hr] at h; simp at h
    | some i => exact ⟨i, (firstOccIdx_some p s i hr).1⟩
  · rintro ⟨i, hi⟩
    unfold containsB
    exact firstOccIdx_isSome p s i hi

instance (p s : List Char) : Decidable (occurs p s) :=
  decidable_of_iff (containsB p s = true) (containsB_iff p s)

theorem containsB_false_iff (p s : List Char) :
    containsB p s = false ↔ ¬ occurs p s := by
  rw [← containsB_iff p s]
  cases containsB p s <;> simp

theorem occursAt_bound (p s : List Char) (i : Nat) (hp : p ≠ [])
    (h : occursAt p s i) : i + p.length ≤ s.length := by
  unfold occursAt at h
  have hle := h.length_le
  simp only [List.length_drop] at hle
  by_cases hi : i ≤ s.length
  · omega
  · have : s.drop i = [] := List.drop_eq_nil_of_le (by omega)
    rw [this, List.prefix_nil] at h
    exact absurd h hp

theorem occursAt_drop (p s : List Char) (n j : Nat) :
    occursAt p (s.drop n) j ↔ occursAt p s (n + j) := by
  unfold occursAt
  rw [List.drop_drop]

/-! ## Claim statements and proofs begin below -/

/-- C9: rendering an empty Conversation together with the new user message
    "hi" yields exactly the user-wrapped "hi" followed by the open
    assistant opener, with no prior turns in the output. -/
theorem render_empty_history_hi :
    renderPrompt [] "hi".toList =
      "<|im_start|>user\nhi<|im_end|>\n<|im_start|>assistant\n".toList := by
  decide

/-- C8: for every prior history and every provider, the `clear` command
    resets the Conversation to `[]` and the loop keeps running
    (result `some []`, not `none`); the result does not depend on the
    provider, which is never consulted on this branch. -/
theorem clear_resets_history (provider : List Char → Option (List Char))
    (hist : List Turn) :
    interactiveStep provider hist "clear".toList = some [] := by
  unfold interactiveStep
  rw [if_neg (by decide), if_pos (by decide)]

/-- C10: when the load attempt fails, `load_model` yields no handle and
    prints the remediation hints, and `main` takes the early-return branch —
    neither single-shot nor interactive mode is reached, whatever the
    command-line arguments were. -/
theorem load_failure_no_generation_mode :
    ∀ (H : Type) (excMsg : List Char) (promptArg : Option (List Char))
      (interactiveFlag : Bool),
      (load_model (none : Option H) excMsg).1 = none
      ∧ "\n💡 Tips:".toList ∈ (load_model (none : Option H) excMsg).2
      ∧ mainAction (none : Option H) promptArg interactiveFlag = MainAction.loadFailed
      ∧ MainAction.loadFailed ≠ MainAction.singleShot
      ∧ MainAction.loadFailed ≠ MainAction.interactiveMode := by
  intro H excMsg promptArg interactiveFlag
  refine ⟨rfl, ?_, rfl, by decide, by decide⟩
  exact List.mem_cons_of_mem _ (by decide)

/-- C2: in interactive mode the rendered conversation is not submitted
    as-is: `generate_response` applies the ChatML wrapping of line 52 to it,
    so the provider receives the rendered conversation (which itself ends in
    an open assistant opener) wrapped inside one more
    `<|im_start|>user … <|im_end|>` pair followed by a second open
    `<|im_start|>assistant\n` opener. -/
theorem submitted_prompt_double_wraps (provider : List Char → Option (List Char))
    (hist : List Turn) (ui : List Char) :
    generate_response provider (renderPrompt hist ui)
        = (provider (chatmlWrap (renderPrompt hist ui))).map extractResponse
    ∧ chatmlWrap (renderPrompt hist ui)
        = imStartUser ++ (renderPrompt hist ui ++ (imEndNl ++ imStartAssistant))
    ∧ chatmlWrap (renderPrompt hist ui) ≠ renderPrompt hist ui
    ∧ ∃ pre, renderPrompt hist ui = pre ++ imStartAssistant := by
  refine ⟨rfl, by simp [chatmlWrap], ?_, ?_⟩
  · intro h
    have hlen := congrArg List.length h
    simp only [chatmlWrap, List.length_append] at hlen
    have h1 : imStartUser.length = 17 := by decide
    have h2 : imEndNl.length = 11 := by decide
    have h3 : imStartAssistant.length = 22 := by decide
    omega
  · exact ⟨renderHistory hist ++ (imStartUser ++ (ui ++ imEndNl)),
      by simp [renderPrompt, List.append_assoc]⟩

/-- C6: the history length is even at every await point: it is even at
    startup, and one loop iteration maps an even history to an even history —
    each iteration either clears the history, leaves it unchanged, or appends
    the user/assistant pair as a unit. -/
theorem history_length_even_preserved (provider : List Char → Option (List Char))
    (hist : List Turn) (raw : List Char) (h' : List Turn)
    (heven : hist.length % 2 = 0)
    (hstep : interactiveStep provider hist raw = some h') :
    ([] : List Turn).length % 2 = 0 ∧ h'.length % 2 = 0 ∧
      (h' = [] ∨ h' = hist ∨
        ∃ u a, h' = hist ++ [⟨Role.user, u⟩, ⟨Role.assistant, a⟩]) := by
  have hcases : h' = [] ∨ h' = hist ∨
      ∃ u a, h' = hist ++ [⟨Role.user, u⟩, ⟨Role.assistant, a⟩] := by
    unfold interactiveStep at hstep
    split at hstep
    · exact absurd hstep (by simp)
    · split at hstep
      · injection hstep with hh
        exact Or.inl hh.symm
      · split at hstep
        · injection hstep with hh
          exact Or.inr (Or.inl hh.symm)
        · split at hstep
          · rename_i r hr
            split at hstep
            · injection hstep with hh
              exact Or.inr (Or.inl hh.symm)
            · injection hstep with hh
              exact Or.inr (Or.inr ⟨pyStrip raw, r, hh.symm⟩)
          · injection hstep with hh
            exact Or.inr (Or.inl hh.symm)
  refine ⟨rfl, ?_, hcases⟩
  rcases hcases with h | h | ⟨u, a, h⟩
  · subst h; rfl
  · subst h; exact heven
  · subst h
    simp only [List.length_append, List.length_cons, List.length_nil]
    omega

theorem history_length_even_preserved_witness :
    ([] : List Turn).length % 2 = 0 ∧
    interactiveStep (fun _ => some "ok".toList) [] "hi".toList
      = some [⟨Role.user, "hi".toList⟩, ⟨Role.assistant, "ok".toList⟩] ∧
    ([⟨Role.user, "hi".toList⟩, ⟨Role.assistant, "ok".toList⟩] : List Turn).length % 2
      = 0 := by
  refine ⟨by decide, by decide, ?_⟩
  exact (history_length_even_preserved (fun _ => some "ok".toList) [] "hi".toList
    [⟨Role.user, "hi".toList⟩, ⟨Role.assistant, "ok".toList⟩]
    (by decide) (by decide)).2.1

/-- C7: starting from an empty Conversation, one successful round trip with
    user input "hi" whose provider answer extracts to "hello" leaves the
    history equal to `[user:"hi", assistant:"hello"]`, of length exactly 2. -/
theorem successful_round_trip_two_turns (provider : List Char → Option (List Char))
    (raw0 : List Char)
    (hp : provider (chatmlWrap (renderPrompt [] "hi".toList)) = some raw0)
    (hx : extractResponse raw0 = "hello".toList) :
    interactiveStep provider [] "hi".toList
      = some [⟨Role.user, "hi".toList⟩, ⟨Role.assistant, "hello".toList⟩] ∧
    ∀ h', interactiveStep provider [] "hi".toList = some h' → h'.length = 2 := by
  have hps : pyStrip ("hi".toList) = "hi".toList := by decide
  have hmain : interactiveStep provider [] "hi".toList
      = some [⟨Role.user, "hi".toList⟩, ⟨Role.assistant, "hello".toList⟩] := by
    unfold interactiveStep generate_response
    rw [hps, hp, Option.map_some', hx]
    decide
  refine ⟨hmain, ?_⟩
  intro h' hh
  rw [hmain] at hh
  injection hh with hh2
  rw [← hh2]
  decide

theorem successful_round_trip_two_turns_witness :
    ((fun _ : List Char => some "hello".toList)
        (chatmlWrap (renderPrompt [] "hi".toList)) = some "hello".toList)
    ∧ extractResponse "hello".toList = "hello".toList
    ∧ interactiveStep (fun _ : List Char => some "hello".toList) [] "hi".toList
        = some [⟨Role.user, "hi".toList⟩, ⟨Role.assistant, "hello".toList⟩] := by
  refine ⟨rfl, by decide, ?_⟩
  exact (successful_round_trip_two_turns (fun _ : List Char => some "hello".toList)
    "hello".toList rfl (by decide)).1

/-- C1 (amended): when the provider call of an interactive turn fails, the
    Conversation is left entirely unchanged — the user Turn is not appended
    either — and the loop returns to awaiting input rather than
    terminating. -/
theorem generation_failure_keeps_history (provider : List Char → Option (List Char))
    (hist : List Turn) (raw : List Char)
    (hq : pyLower (pyStrip raw) ≠ "quit".toList)
    (hc : pyLower (pyStrip raw) ≠ "clear".toList)
    (hne : pyStrip raw ≠ [])
    (hfail : provider (chatmlWrap (renderPrompt hist (pyStrip raw))) = none) :
    interactiveStep provider hist raw = some hist := by
  unfold interactiveStep generate_response
  rw [if_neg hq, if_neg hc, if_neg hne, hfail]
  rfl

theorem generation_failure_keeps_history_witness :
    (pyLower (pyStrip "hi".toList) ≠ "quit".toList)
    ∧ (pyLower (pyStrip "hi".toList) ≠ "clear".toList)
    ∧ (pyStrip "hi".toList ≠ [])
    ∧ interactiveStep (fun _ : List Char => none) [] "hi".toList = some [] := by
  refine ⟨by decide, by decide, by decide, ?_⟩
  exact generation_failure_keeps_history (fun _ : List Char => none) [] "hi".toList
    (by decide) (by decide) (by decide) rfl

/-- C1 counterexample to the claim as stated: with empty history, input
    "hi" and a failing provider, the loop continues with history `[]` —
    the claimed dangling user Turn `[user:"hi"]` is not there. -/
theorem generation_failure_appends_user_turn_cex :
    interactiveStep (fun _ : List Char => none) [] "hi".toList = some [] ∧
    ([] : List Turn) ≠ [⟨Role.user, "hi".toList⟩] := by
  exact ⟨by decide, by decide⟩

/-! ## Shared helper lemmas about markers and prefixes -/

theorem marker_length : imStartAssistant.length = 22 := by decide

theorem marker_ne_nil : imStartAssistant ≠ [] := by decide

/-- From an occurrence of `p` across `a ++ b` that covers all of `a`, the
    part of `p` beyond `a` starts `b`. -/
theorem drop_of_append_of_le (p a b : List Char) (h : p <+: a ++ b)
    (hl : a.length ≤ p.length) : p.drop a.length <+: b := by
  obtain ⟨t, ht⟩ := h
  refine ⟨t, ?_⟩
  have h2 := congrArg (List.drop a.length) ht
  rw [List.drop_append_eq_append_drop, List.drop_append_eq_append_drop] at h2
  simpa [Nat.sub_eq_zero_of_le hl] using h2

/-- From an occurrence of `p` across `a ++ b` that covers all of `a`, the
    first `a.length` characters of `p` are exactly `a`. -/
theorem take_of_append_of_le (p a b : List Char) (h : p <+: a ++ b)
    (hl : a.length ≤ p.length) : p.take a.length = a := by
  obtain ⟨t, ht⟩ := h
  have h2 := congrArg (List.take a.length) ht
  rw [List.take_append_eq_append_take, List.take_append_eq_append_take] at h2
  simpa [Nat.sub_eq_zero_of_le hl] using h2

/-- C3 (amended): when neither the assistant opener nor the end marker
    occurs in the decoded text, the extractor returns the input merely
    trimmed.  (The end-marker condition is needed: line 78-79 truncates at
    `<|im_end|` whenever `<|im_end|>` occurs, even with no assistant
    opener present.) -/
theorem extractor_no_marker_trims (s : List Char)
    (hm : ¬ occurs imStartAssistant s) (he : ¬ occurs imEnd s) :
    extractResponse s = pyStrip s := by
  have h1 : containsB imStartAssistant s = false := (containsB_false_iff _ _).2 hm
  have h2 : containsB imEnd s = false := (containsB_false_iff _ _).2 he
  simp [extractResponse, h1, h2]

theorem extractor_no_marker_trims_witness :
    (¬ occurs imStartAssistant "hello".toList) ∧ (¬ occurs imEnd "hello".toList)
    ∧ extractResponse "hello".toList = pyStrip "hello".toList := by
  refine ⟨by decide, by decide, ?_⟩
  exact extractor_no_marker_trims _ (by decide) (by decide)

/-- C3 counterexample to the claim as stated: `"foo<|im_end|>bar"` contains
    no assistant opener, yet the extractor does not return it unchanged
    (trimmed): line 79 truncates it to `"foo"`. -/
theorem extractor_no_marker_truncates_cex :
    (¬ occurs imStartAssistant "foo<|im_end|>bar".toList)
    ∧ extractResponse "foo<|im_end|>bar".toList = "foo".toList
    ∧ extractResponse "foo<|im_end|>bar".toList ≠ pyStrip "foo<|im_end|>bar".toList := by
  refine ⟨by decide, by decide, by decide⟩

instance (p s : List Char) (ℓ : Nat) : Decidable (isLastOccurrenceAt p s ℓ) := by
  unfold isLastOccurrenceAt; infer_instance

instance (p s : List Char) (k : Nat) : Decidable (isFirstOccurrenceAt p s k) := by
  unfold isFirstOccurrenceAt; infer_instance

instance (s : List Char) (i : Nat) : Decidable (openAssistantAt s i) := by
  unfold openAssistantAt; infer_instance

/-- The assistant opener cannot overlap itself: no proper non-trivial
    shift of it matches a prefix of it. -/
theorem marker_no_self_overlap :
    ∀ d, d < 22 → 0 < d →
      imStartAssistant.take (22 - d) ≠ imStartAssistant.drop d := by
  decide

/-- Two occurrences of the assistant opener cannot lie strictly closer than
    its length. -/
theorem marker_occ_gap (s : List Char) (i d : Nat)
    (h1 : occursAt imStartAssistant s i) (h2 : occursAt imStartAssistant s (i + d))
    (hd : d < 22) : d = 0 := by
  by_contra hd0
  have hdpos : 0 < d := Nat.pos_of_ne_zero hd0
  obtain ⟨t, ht⟩ := h1
  have hle : d ≤ imStartAssistant.length := by rw [marker_length]; omega
  have hdrop : s.drop (i + d) = imStartAssistant.drop d ++ t := by
    rw [← List.drop_drop, ← ht, List.drop_append_eq_append_drop]
    simp [Nat.sub_eq_zero_of_le hle]
  have h2' : imStartAssistant <+: imStartAssistant.drop d ++ t := by
    have := h2
    unfold occursAt at this
    rwa [hdrop] at this
  have hlen2 : (imStartAssistant.drop d).length ≤ imStartAssistant.length := by
    rw [List.length_drop]
    omega
  have htake := take_of_append_of_le imStartAssistant (imStartAssistant.drop d) t h2' hlen2
  rw [List.length_drop, marker_length] at htake
  exact marker_no_self_overlap d hd hdpos htake

/-- With enough fuel, the split-last scan lands exactly after the last
    occurrence of the assistant opener. -/
theorem pySplitLastAux_last (fuel : Nat) :
    ∀ (s : List Char) (ℓ : Nat), s.length ≤ fuel →
      occursAt imStartAssistant s ℓ →
      (∀ j, occursAt imStartAssistant s j → j ≤ ℓ) →
      pySplitLastAux imStartAssistant fuel s = s.drop (ℓ + 22) := by
  induction fuel with
  | zero =>
      intro s ℓ hlen hocc _
      exfalso
      have hb := occursAt_bound imStartAssistant s ℓ marker_ne_nil hocc
      rw [marker_length] at hb
      omega
  | succ fuel ih =>
      intro s ℓ hlen hocc hmax
      have hsome := firstOccIdx_isSome imStartAssistant s ℓ hocc
      cases hfo : firstOccIdx? imStartAssistant s with
      | none => rw [hfo] at hsome; simp at hsome
      | some i =>
          obtain ⟨hfi, hfmin⟩ := firstOccIdx_some imStartAssistant s i hfo
          have hiℓ : i ≤ ℓ := hmax i hfi
          have hgap : ℓ = i ∨ i + 22 ≤ ℓ := by
            by_cases hcase : ℓ - i < 22
            · left
              have hocc' : occursAt imStartAssistant s (i + (ℓ - i)) := by
                rw [show i + (ℓ - i) = ℓ by omega]
                exact hocc
              have := marker_occ_gap s i (ℓ - i) hfi hocc' hcase
              omega
            · right; omega
          simp only [pySplitLastAux, hfo, marker_length]
          rcases hgap with hEq | hFar
          · subst hEq
            have hnone : firstOccIdx? imStartAssistant (s.drop (ℓ + 22)) = none := by
              cases hfo2 : firstOccIdx? imStartAssistant (s.drop (ℓ + 22)) with
              | none => rfl
              | some k =>
                  exfalso
                  have hk := (firstOccIdx_some _ _ k hfo2).1
                  have hks : occursAt imStartAssistant s (ℓ + 22 + k) :=
                    (occursAt_drop imStartAssistant s (ℓ + 22) k).1 hk
                  have := hmax _ hks
                  omega
            cases fuel with
            | zero => rfl
            | succ f => simp only [pySplitLastAux, hnone]
          · have hb := occursAt_bound imStartAssistant s ℓ marker_ne_nil hocc
            rw [marker_length] at hb
            have hlen' : (s.drop (i + 22)).length ≤ fuel := by
              rw [List.length_drop]
              omega
            have hocc' : occursAt imStartAssistant (s.drop (i + 22)) (ℓ - (i + 22)) := by
              rw [occursAt_drop]
              rw [show i + 22 + (ℓ - (i + 22)) = ℓ by omega]
              exact hocc
            have hmax' : ∀ j, occursAt imStartAssistant (s.drop (i + 22)) j →
                j ≤ ℓ - (i + 22) := by
              intro j hj
              have hjs := (occursAt_drop imStartAssistant s (i + 22) j).1 hj
              have := hmax _ hjs
              omega
            rw [ih (s.drop (i + 22)) (ℓ - (i + 22)) hlen' hocc' hmax']
            rw [List.drop_drop]
            rw [show i + 22 + (ℓ - (i + 22) + 22) = ℓ + 22 by omega]

/-- `split(opener)[-1]` returns exactly the text after the last occurrence
    of the assistant opener. -/
theorem pySplitLast_eq_drop_lastOcc (s : List Char) (ℓ : Nat)
    (h : isLastOccurrenceAt imStartAssistant s ℓ) :
    pySplitLast imStartAssistant s = s.drop (ℓ + 22) := by
  obtain ⟨hocc, hmax⟩ := h
  apply pySplitLastAux_last s.length s ℓ le_rfl hocc
  intro j hj
  have hb := occursAt_bound imStartAssistant s j marker_ne_nil hj
  exact hmax j (by omega) hj

/-- `split(sep)[0]` returns exactly the text before the first occurrence. -/
theorem pySplitFirst_eq_take (p s : List Char) (k : Nat)
    (hk : isFirstOccurrenceAt p s k) : pySplitFirst p s = s.take k := by
  obtain ⟨hocc, hmin⟩ := hk
  have hsome := firstOccIdx_isSome p s k hocc
  cases hfo : firstOccIdx? p s with
  | none => rw [hfo] at hsome; simp at hsome
  | some i =>
      obtain ⟨hfi, hfmin⟩ := firstOccIdx_some p s i hfo
      have h1 : ¬ i < k := fun h => hmin i h hfi
      have h2 : ¬ k < i := fun h => hfmin k h hocc
      have hik : i = k := by omega
      subst hik
      simp [pySplitFirst, hfo]

/-- C4 (amended): for text containing the assistant opener, the extractor
    keeps the text after the opener's last occurrence; when the full end
    marker `<|im_end|>` occurs in that remainder, it truncates at the first
    occurrence of the separator `<|im_end|` of line 79 (the end marker
    without its closing `>`, which can cut earlier than the full marker);
    finally it trims. -/
theorem extractor_after_last_marker (s : List Char) (ℓ : Nat)
    (hlast : isLastOccurrenceAt imStartAssistant s ℓ) :
    (¬ occurs imEnd (s.drop (ℓ + 22)) →
        extractResponse s = pyStrip (s.drop (ℓ + 22)))
    ∧ (occurs imEnd (s.drop (ℓ + 22)) →
        ∀ k, isFirstOccurrenceAt imEndUnclosed (s.drop (ℓ + 22)) k →
          extractResponse s = pyStrip ((s.drop (ℓ + 22)).take k)) := by
  have hcm : containsB imStartAssistant s = true :=
    (containsB_iff _ _).2 ⟨ℓ, hlast.1⟩
  have hsplit : pySplitLast imStartAssistant s = s.drop (ℓ + 22) :=
    pySplitLast_eq_drop_lastOcc s ℓ hlast
  constructor
  · intro hne
    have hce : containsB imEnd (s.drop (ℓ + 22)) = false :=
      (containsB_false_iff _ _).2 hne
    simp [extractResponse, hcm, hsplit, hce]
  · intro hocc k hk
    have hce : containsB imEnd (s.drop (ℓ + 22)) = true := (containsB_iff _ _).2 hocc
    have htake := pySplitFirst_eq_take imEndUnclosed (s.drop (ℓ + 22)) k hk
    simp [extractResponse, hcm, hsplit, hce, htake]

theorem extractor_after_last_marker_witness :
    isLastOccurrenceAt imStartAssistant
        "x<|im_start|>assistant\nHello there<|im_end|>".toList 1
    ∧ occurs imEnd (("x<|im_start|>assistant\nHello there<|im_end|>".toList).drop (1 + 22))
    ∧ isFirstOccurrenceAt imEndUnclosed
        (("x<|im_start|>assistant\nHello there<|im_end|>".toList).drop (1 + 22)) 11
    ∧ extractResponse "x<|im_start|>assistant\nHello there<|im_end|>".toList
        = "Hello there".toList := by
  refine ⟨by decide, by decide, by decide, ?_⟩
  have h := (extractor_after_last_marker
      "x<|im_start|>assistant\nHello there<|im_end|>".toList 1 (by decide)).2
      (by decide) 11 (by decide)
  rw [h]
  decide

/-- C4 counterexample to the claim as stated: after the last assistant
    opener the text is `a<|im_end|b<|im_end|>`; its (first and only) full
    end marker starts at index 11, so the claim predicts `a<|im_end|b`
    (trimmed), but the code truncates at the bare `<|im_end|` at index 1
    and returns `a`. -/
theorem extractor_truncation_point_cex :
    isLastOccurrenceAt imStartAssistant
        "<|im_start|>assistant\na<|im_end|b<|im_end|>".toList 0
    ∧ isFirstOccurrenceAt imEnd
        (("<|im_start|>assistant\na<|im_end|b<|im_end|>".toList).drop 22) 11
    ∧ extractResponse "<|im_start|>assistant\na<|im_end|b<|im_end|>".toList
        = "a".toList
    ∧ extractResponse "<|im_start|>assistant\na<|im_end|b<|im_end|>".toList
        ≠ pyStrip ((("<|im_start|>assistant\na<|im_end|b<|im_end|>".toList).drop 22).take 11) := by
  refine ⟨by decide, by decide, by decide, by decide⟩

/-! ## C5: the rendered prompt has exactly one open assistant opener -/

/-- The rendered prompt always ends in the fixed 33-character block
    `<|im_end|>\n<|im_start|>assistant\n` of line 119. -/
theorem renderPrompt_decomp (hist : List Turn) (ui : List Char) :
    renderPrompt hist ui
      = (renderHistory hist ++ imStartUser ++ ui) ++ (imEndNl ++ imStartAssistant) := by
  simp [renderPrompt, List.append_assoc]

/-- In the closing block, the assistant opener occurs only at offset 11. -/
theorem marker_in_tail :
    ∀ m, m < 12 → occursAt imStartAssistant (imEndNl ++ imStartAssistant) m →
      m = 11 := by
  decide

/-- No proper tail of the assistant opener starts the closing block, so no
    occurrence of the opener can straddle the boundary into the block. -/
theorem marker_drop_tail :
    ∀ d, d < 22 → 0 < d →
      ¬ (imStartAssistant.drop d <+: (imEndNl ++ imStartAssistant)) := by
  decide

/-- Any text followed by the closing block has exactly one open assistant
    opener, sitting at the very end. -/
theorem open_marker_unique_in_append (B : List Char) :
    ∃ i, openAssistantAt (B ++ (imEndNl ++ imStartAssistant)) i
      ∧ i + imStartAssistant.length = (B ++ (imEndNl ++ imStartAssistant)).length
      ∧ ∀ j, openAssistantAt (B ++ (imEndNl ++ imStartAssistant)) j → j = i := by
  have hTlen : (imEndNl ++ imStartAssistant).length = 33 := by decide
  have hSlen : (B ++ (imEndNl ++ imStartAssistant)).length = B.length + 33 := by
    rw [List.length_append, hTlen]
  have hB11 : B.drop (B.length + 11) = [] := List.drop_eq_nil_of_le (by omega)
  have hdrop0 : (B ++ (imEndNl ++ imStartAssistant)).drop (B.length + 11)
      = imStartAssistant := by
    rw [List.drop_append_eq_append_drop, hB11]
    rw [show B.length + 11 - B.length = 11 by omega]
    simp only [List.nil_append]
    decide
  have hocc0 : occursAt imStartAssistant
      (B ++ (imEndNl ++ imStartAssistant)) (B.length + 11) := by
    unfold occursAt
    rw [hdrop0]
  have hopen0 : openAssistantAt
      (B ++ (imEndNl ++ imStartAssistant)) (B.length + 11) := by
    refine ⟨hocc0, ?_⟩
    intro j hjle hjge hoccj
    rw [marker_length] at hjge
    rw [hSlen] at hjle
    have hnil : (B ++ (imEndNl ++ imStartAssistant)).drop j = [] :=
      List.drop_eq_nil_of_le (by rw [hSlen]; omega)
    unfold occursAt at hoccj
    rw [hnil, List.prefix_nil] at hoccj
    exact absurd hoccj (by decide)
  refine ⟨B.length + 11, hopen0, by rw [marker_length, hSlen], ?_⟩
  intro j hj
  obtain ⟨hjocc, hjopen⟩ := hj
  have hjb : j + 22 ≤ B.length + 33 := by
    have hb := occursAt_bound imStartAssistant _ j marker_ne_nil hjocc
    rw [marker_length, hSlen] at hb
    exact hb
  by_cases hcase : B.length ≤ j
  · have hBj : B.drop j = [] := List.drop_eq_nil_of_le hcase
    have hm : occursAt imStartAssistant (imEndNl ++ imStartAssistant)
        (j - B.length) := by
      unfold occursAt at hjocc ⊢
      rw [List.drop_append_eq_append_drop, hBj] at hjocc
      simpa using hjocc
    have hm12 : j - B.length < 12 := by omega
    have := marker_in_tail (j - B.length) hm12 hm
    omega
  · push_neg at hcase
    by_cases hc2 : j + 22 ≤ B.length
    · exfalso
      refine hjopen B.length (by rw [hSlen]; omega)
        (by rw [marker_length]; omega) ?_
      unfold occursAt
      rw [List.drop_append_eq_append_drop, List.drop_length, Nat.sub_self,
        List.drop_zero, List.nil_append]
      decide
    · exfalso
      push_neg at hc2
      have hsp : imStartAssistant <+:
          (B.drop j ++ (imEndNl ++ imStartAssistant)) := by
        unfold occursAt at hjocc
        rw [List.drop_append_eq_append_drop] at hjocc
        rw [Nat.sub_eq_zero_of_le (le_of_lt hcase), List.drop_zero] at hjocc
        exact hjocc
      have hlen2 : (B.drop j).length ≤ imStartAssistant.length := by
        rw [List.length_drop, marker_length]
        omega
      have hstr := drop_of_append_of_le imStartAssistant (B.drop j)
        (imEndNl ++ imStartAssistant) hsp hlen2
      rw [List.length_drop] at hstr
      exact marker_drop_tail (B.length - j) (by omega) (by omega) hstr

/-- C5: for every non-empty Conversation, whatever the roles and contents
    of its turns and whatever the new user message, the rendered prompt
    contains exactly one open (unclosed) assistant opener, and it sits at
    the very end of the output. -/
theorem render_unique_open_assistant_marker (hist : List Turn) (ui : List Char)
    (_hne : hist ≠ []) :
    ∃ i, openAssistantAt (renderPrompt hist ui) i
      ∧ i + imStartAssistant.length = (renderPrompt hist ui).length
      ∧ ∀ j, openAssistantAt (renderPrompt hist ui) j → j = i := by
  rw [renderPrompt_decomp]
  exact open_marker_unique_in_append _

theorem render_unique_open_assistant_marker_witness :
    ([⟨Role.user, "a".toList⟩] : List Turn) ≠ []
    ∧ ∃ i, openAssistantAt (renderPrompt [⟨Role.user, "a".toList⟩] "b".toList) i
        ∧ i + imStartAssistant.length
            = (renderPrompt [⟨Role.user, "a".toList⟩] "b".toList).length
        ∧ ∀ j, openAssistantAt (renderPrompt [⟨Role.user, "a".toList⟩] "b".toList) j
            → j = i := by
  refine ⟨by decide, ?_⟩
  exact render_unique_open_assistant_marker _ _ (by decide)
